import Mathlib

/-!
Shallow embedding of `src/src/main.rs` (a Starknet declare / deploy /
batch-transfer driver) together with theorems checking the repository's
specification against it.

Field elements (`FieldElement` in the source) are modelled as `Nat`;
where the source's field arithmetic matters (nonce increments, the
address modulus) the reduction modulo the STARK prime, resp. the address
bound, is written explicitly.  The Pedersen hash primitive lives in the
`starknet` library, not in this repository, so it is carried as an
explicit function parameter `pedersen : Nat → Nat → Nat`; every theorem
about address derivation quantifies over it.
-/

namespace MadaraInvoke

/-- The STARK prime `2^251 + 17 * 2^192 + 1`, the modulus of `FieldElement`
arithmetic in the source. -/
def STARK_PRIME : Nat :=
  3618502788666131213697322783095070105623107215331596699973092056135872020481

/-- `PREFIX_CONTRACT_ADDRESS` from `main.rs` (a Montgomery-form constant
whose value is the Cairo string "STARKNET_CONTRACT_ADDRESS", i.e. the
big-endian bytes of that ASCII string read as an integer). -/
def PREFIX_CONTRACT_ADDRESS : Nat :=
  523065374597054866729014270389667305596563390979550329787219

/-- `ADDR_BOUND` from `main.rs`: `2 ^ 251 - 256`. -/
def ADDR_BOUND : Nat :=
  3618502788666131106986593281521497120414687020801267626233049500247285300992

/-- `CHECK_INTERVAL` from `main.rs` (500 ms), in milliseconds. -/
def CHECK_INTERVAL : Nat := 500

/-- `WAIT_FOR_TX_TIMEOUT` from `main.rs` (60 s), in milliseconds. -/
def WAIT_FOR_TX_TIMEOUT : Nat := 60000

/-- `MAX_FEE` from `main.rs`. -/
def MAX_FEE : Nat := 0x6efb28c75a0000

/-- `starknet::core::types::ExecutionResult`: the execution status embedded
in a (possibly pending) transaction receipt. -/
inductive ExecutionResult where
  | succeeded : ExecutionResult
  | reverted (reason : String) : ExecutionResult
deriving DecidableEq, Repr

/-- `starknet::core::types::MaybePendingTransactionReceipt`.  The source
only ever consumes the receipt's `execution_result()`, so each variant is
modelled as carrying exactly that. -/
inductive MaybePendingTransactionReceipt where
  | receipt (r : ExecutionResult) : MaybePendingTransactionReceipt
  | pendingReceipt (r : ExecutionResult) : MaybePendingTransactionReceipt
deriving DecidableEq, Repr

/-- The named `starknet::core::types::StarknetError` codes the source
distinguishes, plus representative others. -/
inductive StarknetError where
  | classHashNotFound : StarknetError
  | transactionHashNotFound : StarknetError
  | contractNotFound : StarknetError
  | blockNotFound : StarknetError
  | contractError : StarknetError
deriving DecidableEq, Repr

/-- `starknet::providers::MaybeUnknownErrorCode`. -/
inductive MaybeUnknownErrorCode where
  | known (e : StarknetError) : MaybeUnknownErrorCode
  | unknown (code : Int) : MaybeUnknownErrorCode
deriving DecidableEq, Repr

/-- `starknet::providers::StarknetErrorWithMessage`. -/
structure StarknetErrorWithMessage where
  code : MaybeUnknownErrorCode
  message : String
deriving DecidableEq, Repr

/-- `starknet::providers::ProviderError`. -/
inductive ProviderError where
  | starknetError (e : StarknetErrorWithMessage) : ProviderError
  | rateLimited : ProviderError
  | other (msg : String) : ProviderError
deriving DecidableEq, Repr

/-- The outcome of one call of `wait_for_tx`.  `succeeded` models `Ok(())`;
the three error outcomes model the distinct `bail!` / `Err` exits, each
carrying the transaction hash that the source's message names; `panicked`
models the `unwrap()` panic on a failed `SystemTime::elapsed` (a process
abort, not a returned `Result`). -/
inductive TxOutcome where
  | succeeded : TxOutcome
  | reverted (txHash : Nat) (reason : String) : TxOutcome
  | timedOut (txHash : Nat) : TxOutcome
  | failed (txHash : Nat) (err : ProviderError) : TxOutcome
  | panicked : TxOutcome
deriving DecidableEq, Repr

/-- The environment one `wait_for_tx` call observes, indexed by poll
iteration: `clock i` is the `start.elapsed()` reading (in milliseconds) at
iteration `i`, `none` when `SystemTime::elapsed` returns `Err` (clock moved
backwards); `receipt i` is the provider's answer to
`get_transaction_receipt` at iteration `i`. -/
structure PollEnv where
  clock : Nat → Option Nat
  receipt : Nat → Except ProviderError MaybePendingTransactionReceipt

/-- What one iteration of the `loop` in `wait_for_tx` does: either exit
with an outcome, or sleep for the check interval and poll again. -/
inductive PollStep where
  | done (o : TxOutcome) : PollStep
  | again : PollStep
deriving DecidableEq, Repr

/-- One iteration of the `loop` body of `wait_for_tx` (`main.rs` lines
240-280): first the timeout check on the unwrapped elapsed time, then the
receipt query, with the source's exact match arms. -/
def wait_for_tx_step (env : PollEnv) (txHash : Nat) (i : Nat) : PollStep :=
  match env.clock i with
  | none => .done .panicked
  | some elapsed =>
    if elapsed ≥ WAIT_FOR_TX_TIMEOUT then
      .done (.timedOut txHash)
    else
      match env.receipt i with
      | .ok (.receipt r) =>
        match r with
        | .succeeded => .done .succeeded
        | .reverted reason => .done (.reverted txHash reason)
      | .ok (.pendingReceipt r) =>
        match r with
        | .reverted reason => .done (.reverted txHash reason)
        | .succeeded => .again
      | .error (.starknetError ⟨.known .transactionHashNotFound, _⟩) => .again
      | .error e => .done (.failed txHash e)

/-- The `wait_for_tx` polling loop run from iteration `i` with `fuel`
remaining iterations: `none` means the loop was still polling after `fuel`
iterations (the source loop has no iteration bound of its own; fuel makes
a finite observation window explicit). -/
def wait_for_tx (env : PollEnv) (txHash : Nat) : Nat → Nat → Option TxOutcome
  | 0, _ => none
  | fuel + 1, i =>
    match wait_for_tx_step env txHash i with
    | .done o => some o
    | .again => wait_for_tx env txHash fuel (i + 1)

/-- If every iteration before `k` keeps polling and iteration `k` exits
with outcome `o`, the loop started at 0 returns `o`. -/
theorem wait_for_tx_run (env : PollEnv) (txHash : Nat) (k : Nat) (o : TxOutcome)
    (hpoll : ∀ i, i < k → wait_for_tx_step env txHash i = .again)
    (hdone : wait_for_tx_step env txHash k = .done o) :
    ∀ j, j ≤ k → wait_for_tx env txHash (k + 1 - j) j = some o := by
  intro j hj
  generalize hk : k + 1 - j = fuel
  induction fuel generalizing j with
  | zero => omega
  | succ fuel ih =>
    rcases Nat.lt_or_ge j k with hlt | hge
    · rw [wait_for_tx, hpoll j hlt]
      exact ih (j + 1) (by omega) (by omega)
    · have : j = k := by omega
      subst this
      rw [wait_for_tx, hdone]

/-- Any run that returns `timedOut` contains a poll iteration whose clock
reading was at least the timeout. -/
theorem wait_for_tx_timedOut_clock (env : PollEnv) (txHash h : Nat) :
    ∀ fuel i, wait_for_tx env txHash fuel i = some (.timedOut h) →
      ∃ j e, env.clock j = some e ∧ e ≥ WAIT_FOR_TX_TIMEOUT := by
  intro fuel
  induction fuel with
  | zero => intro i hrun; simp [wait_for_tx] at hrun
  | succ fuel ih =>
    intro i hrun
    rw [wait_for_tx] at hrun
    rcases hstep : wait_for_tx_step env txHash i with o | _
    · rw [hstep] at hrun
      simp only [Option.some.injEq] at hrun
      subst hrun
      unfold wait_for_tx_step at hstep
      rcases hclock : env.clock i with _ | elapsed
      · rw [hclock] at hstep; simp at hstep
      · rw [hclock] at hstep
        by_cases htime : elapsed ≥ WAIT_FOR_TX_TIMEOUT
        · exact ⟨i, elapsed, hclock, htime⟩
        · simp only [htime, if_false] at hstep
          rcases hrec : env.receipt i with e | r
          · rw [hrec] at hstep
            rcases e with ⟨⟨se | code, msg⟩⟩ | _ | msg
            all_goals first
              | (cases se <;> simp_all)
              | simp_all
          · rw [hrec] at hstep
            rcases r with r | r <;> rcases r with _ | reason <;> simp_all
    · rw [hstep] at hrun
      exact ih (i + 1) hrun

/-- C3: in one poll iteration of `wait_for_tx` (clock read `elapsed`, still
below the timeout): a pending receipt whose embedded execution result is
reverted with reason `R` exits immediately with `Reverted(R)`; a
"transaction not found" provider error keeps polling (the loop continues at
the next iteration after the sleep), never failing by itself; and any other
provider error exits immediately with `Failed`, carrying the transaction
hash, with no retry. -/
theorem wait_for_tx_iteration_cases (env : PollEnv) (txHash i elapsed fuel : Nat)
    (hclock : env.clock i = some elapsed)
    (htime : elapsed < WAIT_FOR_TX_TIMEOUT) :
    (∀ reason, env.receipt i = .ok (.pendingReceipt (.reverted reason)) →
      wait_for_tx env txHash (fuel + 1) i = some (.reverted txHash reason)) ∧
    (∀ msg, env.receipt i =
        .error (.starknetError ⟨.known .transactionHashNotFound, msg⟩) →
      wait_for_tx env txHash (fuel + 1) i = wait_for_tx env txHash fuel (i + 1)) ∧
    (∀ e, env.receipt i = .error e →
      (∀ msg, e ≠ .starknetError ⟨.known .transactionHashNotFound, msg⟩) →
      wait_for_tx env txHash (fuel + 1) i = some (.failed txHash e)) := by
  refine ⟨fun reason hrec => ?_, fun msg hrec => ?_, fun e hrec hne => ?_⟩
  · rw [wait_for_tx, wait_for_tx_step, hclock]
    simp [Nat.not_le.mpr htime, hrec]
  · rw [wait_for_tx, wait_for_tx_step, hclock]
    simp [Nat.not_le.mpr htime, hrec]
  · rw [wait_for_tx, wait_for_tx_step, hclock]
    simp only [ge_iff_le, Nat.not_le.mpr htime, if_false, hrec]

/-- Concrete poll environment: the provider always answers with a pending
receipt whose execution result is reverted with reason "reason X". -/
def pollEnvPendingRevert : PollEnv :=
  ⟨fun _ => some 0, fun _ => .ok (.pendingReceipt (.reverted "reason X"))⟩

/-- Witness for C3 at a concrete environment: the pending-reverted answer
makes `wait_for_tx` return `Reverted` on its very first iteration. -/
theorem wait_for_tx_iteration_cases_witness :
    wait_for_tx pollEnvPendingRevert 7 1 0 = some (.reverted 7 "reason X") :=
  (wait_for_tx_iteration_cases pollEnvPendingRevert 7 0 0 0 rfl (by decide)).1
    "reason X" rfl

/-- C4: `wait_for_tx` times out exactly at the timeout boundary.  First
half: with a total clock `c` and a provider that never returns a terminal
receipt, the loop keeps polling while `c i` is below `WAIT_FOR_TX_TIMEOUT`
and returns `TimedOut` at the first iteration `k` whose clock reading
reaches the timeout (so given enough fuel it does return `TimedOut`).
Second half: any run returning `TimedOut` contains an iteration whose
clock reading was at least the timeout, so `TimedOut` is never returned
while elapsed time is below it. -/
theorem wait_for_tx_timeout_boundary :
    (∀ (env : PollEnv) (txHash : Nat) (c : Nat → Nat) (k : Nat),
      (∀ i, env.clock i = some (c i)) →
      (∀ i, i < k → c i < WAIT_FOR_TX_TIMEOUT) →
      WAIT_FOR_TX_TIMEOUT ≤ c k →
      (∀ i, i < k → env.receipt i = .ok (.pendingReceipt .succeeded) ∨
        ∃ msg, env.receipt i =
          .error (.starknetError ⟨.known .transactionHashNotFound, msg⟩)) →
      wait_for_tx env txHash (k + 1) 0 = some (.timedOut txHash)) ∧
    (∀ (env : PollEnv) (txHash h fuel i : Nat),
      wait_for_tx env txHash fuel i = some (.timedOut h) →
      ∃ j e, env.clock j = some e ∧ WAIT_FOR_TX_TIMEOUT ≤ e) := by
  constructor
  · intro env txHash c k hc hlt hk hnt
    have hpoll : ∀ i, i < k → wait_for_tx_step env txHash i = .again := by
      intro i hi
      rw [wait_for_tx_step, hc i]
      have hni : ¬ WAIT_FOR_TX_TIMEOUT ≤ c i := Nat.not_le.mpr (hlt i hi)
      rcases hnt i hi with hrec | ⟨msg, hrec⟩ <;> simp [hni, hrec]
    have hdone : wait_for_tx_step env txHash k = .done (.timedOut txHash) := by
      rw [wait_for_tx_step, hc k]
      simp [hk]
    have h := wait_for_tx_run env txHash k (.timedOut txHash) hpoll hdone 0 (by omega)
    simpa using h
  · intro env txHash h fuel i hrun
    exact wait_for_tx_timedOut_clock env txHash h fuel i hrun

/-- Concrete poll environment: the clock advances 60000 ms per iteration
and the provider never returns a terminal receipt (always "transaction
hash not found"). -/
def pollEnvNeverTerminal : PollEnv :=
  ⟨fun i => some (60000 * i),
   fun _ => .error (.starknetError ⟨.known .transactionHashNotFound, "nf"⟩)⟩

/-- Witness for C4 at a concrete environment: with a never-terminal
provider the loop returns `TimedOut` at the first iteration whose clock
reading reaches the timeout. -/
theorem wait_for_tx_timeout_boundary_witness :
    wait_for_tx pollEnvNeverTerminal 9 2 0 = some (.timedOut 9) :=
  wait_for_tx_timeout_boundary.1 pollEnvNeverTerminal 9 (fun i => 60000 * i) 1
    (fun _ => rfl)
    (fun i hi => by
      have hz : i = 0 := Nat.lt_one_iff.mp hi
      subst hz; decide)
    (by decide)
    (fun i _ => .inr ⟨"nf", rfl⟩)

/-- C10: `wait_for_tx` is not total in its clock input.  On any poll
iteration where `SystemTime::elapsed` returns `Err` (the wall clock reads
before the captured start), the `unwrap()` panics — modelled by the
distinguished `panicked` outcome — rather than producing any of the
ordinary return values; the panic happens before the receipt query, so it
occurs no matter what the provider would answer. -/
theorem wait_for_tx_clock_error_panics (env : PollEnv) (txHash fuel i : Nat)
    (hclock : env.clock i = none) :
    wait_for_tx_step env txHash i = .done .panicked ∧
    wait_for_tx env txHash (fuel + 1) i = some .panicked ∧
    (∀ o, wait_for_tx env txHash (fuel + 1) i = some o → o = .panicked) := by
  have hstep : wait_for_tx_step env txHash i = .done .panicked := by
    rw [wait_for_tx_step, hclock]
  have hrun : wait_for_tx env txHash (fuel + 1) i = some .panicked := by
    rw [wait_for_tx, hstep]
  refine ⟨hstep, hrun, fun o ho => ?_⟩
  rw [hrun] at ho
  exact (Option.some.injEq _ _ ▸ ho).symm

/-- Concrete poll environment: the clock errors on every reading while the
provider already has a succeeded receipt. -/
def pollEnvClockError : PollEnv :=
  ⟨fun _ => none, fun _ => .ok (.receipt .succeeded)⟩

/-- Witness for C10 at a concrete environment: even with a succeeded
receipt available, a failed clock reading panics the poller. -/
theorem wait_for_tx_clock_error_panics_witness :
    wait_for_tx pollEnvClockError 3 1 0 = some .panicked :=
  (wait_for_tx_clock_error_panics pollEnvClockError 3 0 0 rfl).2.1

/-- `starknet::core::crypto::compute_hash_on_elements`, parametrised by the
two-element Pedersen hash primitive (library code, not part of this
repository): fold the elements into a running hash starting from zero, then
hash in the element count. -/
def compute_hash_on_elements (pedersen : Nat → Nat → Nat) (data : List Nat) : Nat :=
  pedersen (data.foldl pedersen 0) data.length

/-- `compute_contract_address` (`main.rs` lines 197-209): the chained hash
over the domain-separation prefix, `FieldElement::ZERO`, the salt, the
class hash, and the chained hash of the constructor calldata, reduced
modulo `ADDR_BOUND`. -/
def compute_contract_address (pedersen : Nat → Nat → Nat)
    (salt class_hash : Nat) (constructor_calldata : List Nat) : Nat :=
  compute_hash_on_elements pedersen
    [PREFIX_CONTRACT_ADDRESS, 0, salt, class_hash,
     compute_hash_on_elements pedersen constructor_calldata] % ADDR_BOUND

/-- `derive_address` as the specification's §4.1 words it: the chained hash
over a fixed domain-separation prefix constant, a fixed zero element, the
salt, the class hash, and the chained hash of the ordered constructor
argument sequence, reduced modulo the fixed upper bound `2 ^ 251 - 256`. -/
def derive_address_spec (pedersen : Nat → Nat → Nat)
    (salt class_hash : Nat) (constructor_args : List Nat) : Nat :=
  compute_hash_on_elements pedersen
    [PREFIX_CONTRACT_ADDRESS, 0, salt, class_hash,
     compute_hash_on_elements pedersen constructor_args] % (2 ^ 251 - 256)

/-- C5: for every hash primitive and all inputs, `compute_contract_address`
agrees with the specification's reference chained-hash algorithm, its
result is strictly below `2 ^ 251 - 256`, and it is deterministic (equal
inputs give an identical address). -/
theorem compute_contract_address_spec :
    (∀ (pedersen : Nat → Nat → Nat) (salt class_hash : Nat) (args : List Nat),
      compute_contract_address pedersen salt class_hash args =
        derive_address_spec pedersen salt class_hash args) ∧
    (∀ (pedersen : Nat → Nat → Nat) (salt class_hash : Nat) (args : List Nat),
      compute_contract_address pedersen salt class_hash args < 2 ^ 251 - 256) ∧
    (∀ (pedersen : Nat → Nat → Nat) (s₁ s₂ c₁ c₂ : Nat) (a₁ a₂ : List Nat),
      s₁ = s₂ → c₁ = c₂ → a₁ = a₂ →
      compute_contract_address pedersen s₁ c₁ a₁ =
        compute_contract_address pedersen s₂ c₂ a₂) := by
  have hbound : ADDR_BOUND = 2 ^ 251 - 256 := by norm_num [ADDR_BOUND]
  refine ⟨fun pedersen salt class_hash args => ?_,
          fun pedersen salt class_hash args => ?_,
          fun pedersen s₁ s₂ c₁ c₂ a₁ a₂ h₁ h₂ h₃ => by rw [h₁, h₂, h₃]⟩
  · rw [compute_contract_address, derive_address_spec, hbound]
  · rw [compute_contract_address, hbound]
    exact Nat.mod_lt _ (by norm_num)

/-- Witness for C5 at a concrete hash primitive and concrete inputs. -/
theorem compute_contract_address_spec_witness :
    compute_contract_address (fun a b => a + b) 1 2 [3] < 2 ^ 251 - 256 ∧
    compute_contract_address (fun a b => a + b) 1 2 [3] =
      compute_contract_address (fun a b => a + b) 1 2 [3] :=
  ⟨compute_contract_address_spec.2.1 (fun a b => a + b) 1 2 [3],
   compute_contract_address_spec.2.2 (fun a b => a + b) 1 1 2 2 [3] [3] rfl rfl rfl⟩

/-- `check_already_declared` (`main.rs` lines 211-229), as a function of
the provider's answer to `get_class(Pending, class_hash)` (the class body
itself is never inspected, hence `Unit`): success maps to `Ok(true)`, the
known `ClassHashNotFound` error maps to `Ok(false)`, and every other error
is propagated (`Err(eyre!(err))`). -/
def check_already_declared (res : Except ProviderError Unit) : Except ProviderError Bool :=
  match res with
  | .ok _ => .ok true
  | .error (.starknetError ⟨.known .classHashNotFound, _⟩) => .ok false
  | .error e => .error e

/-- C6: `check_already_declared` returns `false` exactly on the recognized
"class not found" provider error, returns `true` exactly when the lookup
succeeds, and propagates any other failure as an error. -/
theorem check_already_declared_classification (res : Except ProviderError Unit) :
    (check_already_declared res = .ok false ↔
      ∃ msg, res = .error (.starknetError ⟨.known .classHashNotFound, msg⟩)) ∧
    (check_already_declared res = .ok true ↔ res = .ok ()) ∧
    (∀ e, res = .error e →
      (∀ msg, e ≠ .starknetError ⟨.known .classHashNotFound, msg⟩) →
      check_already_declared res = .error e) := by
  refine ⟨?_, ?_, fun e hres hne => ?_⟩
  · constructor
    · intro h
      rcases res with e | u
      · rcases e with ⟨se | code, msg⟩ | _ | msg
        · cases se <;> simp_all [check_already_declared]
        all_goals simp_all [check_already_declared]
      · simp [check_already_declared] at h
    · rintro ⟨msg, rfl⟩
      rfl
  · constructor
    · intro h
      rcases res with e | u
      · rcases e with ⟨se | code, msg⟩ | _ | msg
        · cases se <;> simp_all [check_already_declared]
        all_goals simp_all [check_already_declared]
      · rfl
    · rintro rfl
      rfl
  · subst hres
    rcases e with ⟨se | code, msg⟩ | _ | msg
    · cases se
      · exact absurd rfl (hne msg)
      all_goals rfl
    all_goals rfl

/-- Witness for C6: a rate-limit error is propagated, not classified. -/
theorem check_already_declared_classification_witness :
    check_already_declared (.error .rateLimited) = .error .rateLimited :=
  (check_already_declared_classification (.error .rateLimited)).2.2
    .rateLimited rfl (fun msg => by simp)

/-- Rust `usize::from_str` on a 64-bit target: an optional leading `+`
followed by one or more ASCII digits, rejecting anything else and values
that do not fit in 64 bits. -/
def parse_usize (s : String) : Option Nat :=
  let ds := match s.data with
    | '+' :: rest => rest
    | cs => cs
  if ds = [] then none
  else if ds.all Char.isDigit then
    let v := ds.foldl (fun a c => a * 10 + (c.toNat - 48)) 0
    if v < 2 ^ 64 then some v else none
  else none

/-- The argument handling of `main` (`main.rs` lines 41-46):
`std::env::args().nth(1).as_deref().map(FromStr::from_str).transpose()?.unwrap_or(1000)`.
`argv` is the full OS argument list with the program name at index 0; a
missing second element defaults to 1000, a present one must parse as
`usize` or the run aborts with the parse error (`?`). -/
def parse_transfer_count (argv : List String) : Except String Nat :=
  match argv.drop 1 with
  | [] => .ok 1000
  | s :: _ =>
    match parse_usize s with
    | some n => .ok n
    | none => .error "invalid digit found in string"

/-- C9: the process takes exactly one optional positional argument — the
transfer count, read from `argv[1]` only (anything beyond it is ignored) —
and defaults to 1000 when that argument is absent. -/
theorem parse_transfer_count_cli (argv : List String) :
    (argv.length ≤ 1 → parse_transfer_count argv = .ok 1000) ∧
    (∀ prog s rest, argv = prog :: s :: rest →
      parse_transfer_count argv =
        match parse_usize s with
        | some n => .ok n
        | none => .error "invalid digit found in string") := by
  constructor
  · intro hlen
    match argv with
    | [] => rfl
    | [prog] => rfl
    | prog :: s :: rest => simp at hlen
  · rintro prog s rest rfl
    rfl

/-- Witness for C9: no argument defaults to 1000; an explicit "3" yields
3 regardless of trailing arguments. -/
theorem parse_transfer_count_cli_witness :
    parse_transfer_count ["prog"] = .ok 1000 ∧
    parse_transfer_count ["prog", "3", "ignored"] = .ok 3 :=
  ⟨(parse_transfer_count_cli ["prog"]).1 (by simp),
   Eq.trans ((parse_transfer_count_cli ["prog", "3", "ignored"]).2
     "prog" "3" ["ignored"] rfl) rfl⟩

/-- `starknet::accounts::AccountError`: what `.send()` on a declare /
deploy / execute request can fail with (signing or underlying provider). -/
inductive AccountError where
  | provider (e : ProviderError) : AccountError
  | signing (msg : String) : AccountError
deriving DecidableEq, Repr

/-- The observable events of one run of `main`: transaction submissions
that reach the network (with the nonce each one carries and the returned
transaction hash), the local `nonce += FieldElement::ONE` steps, and the
`wait_for_tx` calls. -/
inductive Event where
  | declareSubmit (nonce txHash : Nat) : Event
  | deploySubmit (nonce txHash : Nat) : Event
  | transferSubmit (nonce txHash : Nat) : Event
  | nonceAdvance (newNonce : Nat) : Event
  | awaitTx (txHash : Nat) : Event
deriving DecidableEq, Repr

/-- The chain-facing environment one run of `main` observes.  Each field is
the answer the corresponding RPC / account call would produce:
`getNonce` for `account.get_nonce()`, `getClass` for
`get_class(Pending, class_hash)`, `declareSend` for the declare `.send()`
(returning `(transaction_hash, class_hash)`), `getClassHashAt` for
`get_class_hash_at(Pending, address)`, `deploySend` for the deploy
`.send()`, `executeSend i` for the `i`-th transfer `.send()`, and
`txOutcome h` for what the `wait_for_tx` loop returns on hash `h` (the
loop's own behaviour is modelled separately by `wait_for_tx`). -/
structure ChainEnv where
  getNonce : Except ProviderError Nat
  getClass : Except ProviderError Unit
  declareSend : Except AccountError (Nat × Nat)
  getClassHashAt : Except ProviderError Nat
  deploySend : Except AccountError Nat
  executeSend : Nat → Except AccountError Nat
  txOutcome : Nat → TxOutcome

/-- The distinct fatal exits of `main`: a propagated provider error (`?`),
a propagated account/send error (`?`), the `bail!` on a class-hash
conflict at the derived address, and a propagated `wait_for_tx` error. -/
inductive RunError where
  | provider (e : ProviderError) : RunError
  | account (e : AccountError) : RunError
  | conflict (address found expected : Nat) : RunError
  | tx (o : TxOutcome) : RunError
deriving DecidableEq, Repr

/-- The transfer submission loop (`main.rs` lines 159-172): for each of the
remaining `k` transfers, `.send()` with the current nonce (aborting on a
send error via `?`), push the returned hash, and advance the nonce by one
(field addition).  `i` is the index of the next submission, used to
address `executeSend`. -/
def transferSubmitLoop (env : ChainEnv) :
    Nat → Nat → Nat → List Event → List Nat →
    List Event × Except AccountError (List Nat × Nat)
  | _, 0, nonce, ev, hashes => (ev, .ok (hashes, nonce))
  | i, k + 1, nonce, ev, hashes =>
    match env.executeSend i with
    | .error e => (ev, .error e)
    | .ok h =>
      transferSubmitLoop env (i + 1) k ((nonce + 1) % STARK_PRIME)
        (ev ++ [.transferSubmit nonce h, .nonceAdvance ((nonce + 1) % STARK_PRIME)])
        (hashes ++ [h])

/-- The confirmation loop (`main.rs` lines 174-176): `wait_for_tx` on each
collected hash in submission order, propagating the first non-`Ok`
outcome via `?`. -/
def awaitLoop (env : ChainEnv) : List Nat → List Event → List Event × Except RunError Unit
  | [], ev => (ev, .ok ())
  | h :: rest, ev =>
    match env.txOutcome h with
    | .succeeded => awaitLoop env rest (ev ++ [.awaitTx h])
    | o => (ev ++ [.awaitTx h], .error (.tx o))

/-- The batch-transfer phase of `main` (`main.rs` lines 159-176): submit
all transfers back-to-back, and only then await their confirmations. -/
def transferPhase (env : ChainEnv) (args nonce : Nat) (ev : List Event) :
    List Event × Except RunError Unit :=
  match transferSubmitLoop env 0 args nonce ev [] with
  | (ev', .error e) => (ev', .error (.account e))
  | (ev', .ok (hashes, _)) => awaitLoop env hashes ev'

/-- The declare phase of `main` (`main.rs` lines 69-90): if
`check_already_declared` answers `true`, reuse the artifact's class hash;
on `false`, submit the declare with the current nonce, `wait_for_tx` it
(`?`), then advance the nonce and continue with the class hash from the
declare response; errors of the check or the send propagate (`?`).
Returns the class hash and nonce the rest of the run uses. -/
def declarePhase (env : ChainEnv) (class_hash nonce : Nat) :
    List Event × Except RunError (Nat × Nat) :=
  match check_already_declared env.getClass with
  | .error e => ([], .error (.provider e))
  | .ok true => ([], .ok (class_hash, nonce))
  | .ok false =>
    match env.declareSend with
    | .error e => ([], .error (.account e))
    | .ok (txHash, declared_class_hash) =>
      match env.txOutcome txHash with
      | .succeeded =>
        ([.declareSubmit nonce txHash, .awaitTx txHash,
          .nonceAdvance ((nonce + 1) % STARK_PRIME)],
         .ok (declared_class_hash, (nonce + 1) % STARK_PRIME))
      | o => ([.declareSubmit nonce txHash, .awaitTx txHash], .error (.tx o))

/-- The deploy phase of `main` (`main.rs` lines 110-140).  The source's
`if let Ok(contract_class_hash) = get_class_hash_at(..)` takes the `else`
(deploy) branch on EVERY error, of any kind; on success it skips the
deploy when the found hash matches and `bail!`s on a mismatch. -/
def deployPhase (env : ChainEnv) (address args class_hash nonce : Nat)
    (ev : List Event) : List Event × Except RunError Unit :=
  match env.getClassHashAt with
  | .ok contract_class_hash =>
    if contract_class_hash = class_hash then
      transferPhase env args nonce ev
    else
      (ev, .error (.conflict address contract_class_hash class_hash))
  | .error _ =>
    match env.deploySend with
    | .error e => (ev, .error (.account e))
    | .ok txHash =>
      match env.txOutcome txHash with
      | .succeeded =>
        transferPhase env args ((nonce + 1) % STARK_PRIME)
          (ev ++ [.deploySubmit nonce txHash, .awaitTx txHash,
                  .nonceAdvance ((nonce + 1) % STARK_PRIME)])
      | o => (ev ++ [.deploySubmit nonce txHash, .awaitTx txHash], .error (.tx o))

/-- One run of `main` after the artifact load (`main.rs` lines 69-178),
as a function of the chain environment: read the chain nonce, run the
declare phase, derive the target address with salt 1 from the fixed
constructor argument list (whose concrete entries come from `selector!`
macros of the starknet library and are carried as the parameter
`constructor_args`), run the deploy phase, then the batch transfers. -/
def runMain (pedersen : Nat → Nat → Nat) (env : ChainEnv)
    (args class_hash : Nat) (constructor_args : List Nat) :
    List Event × Except RunError Unit :=
  match env.getNonce with
  | .error e => ([], .error (.provider e))
  | .ok nonce0 =>
    match declarePhase env class_hash nonce0 with
    | (ev, .error e) => (ev, .error e)
    | (ev, .ok (class_hash', nonce)) =>
      deployPhase env
        (compute_contract_address pedersen 1 class_hash' constructor_args)
        args class_hash' nonce ev

/-- The nonces carried by the submissions (declare, deploy, transfer) of a
trace, in order. -/
def submittedNonces (ev : List Event) : List Nat :=
  ev.filterMap fun e =>
    match e with
    | .declareSubmit n _ => some n
    | .deploySubmit n _ => some n
    | .transferSubmit n _ => some n
    | _ => none

/-- Number of declare submissions in a trace. -/
def countDeclares (ev : List Event) : Nat :=
  ev.countP fun e => match e with | .declareSubmit _ _ => true | _ => false

/-- Number of deploy submissions in a trace. -/
def countDeploys (ev : List Event) : Nat :=
  ev.countP fun e => match e with | .deploySubmit _ _ => true | _ => false

/-- Number of transfer submissions in a trace. -/
def countTransfers (ev : List Event) : Nat :=
  ev.countP fun e => match e with | .transferSubmit _ _ => true | _ => false

/-- Number of local nonce increments in a trace. -/
def countAdvances (ev : List Event) : Nat :=
  ev.countP fun e => match e with | .nonceAdvance _ => true | _ => false

/-- Concrete chain environment for C1: the class is already declared; the
class-hash query at the derived address fails with a transport-level
error (`rateLimited`) — NOT a "not found" — and the deploy send succeeds. -/
def envDeployGate : ChainEnv where
  getNonce := .ok 5
  getClass := .ok ()
  declareSend := .error (.signing "unused")
  getClassHashAt := .error .rateLimited
  deploySend := .ok 77
  executeSend := fun _ => .error (.signing "unused")
  txOutcome := fun _ => .succeeded

/-- C1 (code bug, failing input): when `get_class_hash_at` fails with a
provider error other than "not found" (here a rate-limit error), the
`if let Ok(..)` at `main.rs` line 112 takes the `else` branch, so the run
treats the address as undeployed and submits a deploy transaction, and the
provider failure is never surfaced: the run even completes with `Ok`. -/
theorem deploy_gate_swallows_provider_error :
    envDeployGate.getClassHashAt = .error .rateLimited ∧
    runMain (fun _ _ => 0) envDeployGate 0 42 [] =
      ([.deploySubmit 5 77, .awaitTx 77, .nonceAdvance 6], .ok ()) ∧
    countDeploys (runMain (fun _ _ => 0) envDeployGate 0 42 []).1 = 1 ∧
    (runMain (fun _ _ => 0) envDeployGate 0 42 []).2 ≠
      .error (.provider .rateLimited) :=
  ⟨rfl, rfl, rfl, fun h => Except.noConfusion h⟩

/-- Concrete chain environment for C2's counterexample: the class is not
yet declared, the declare submission reaches the network, and its
confirmation comes back reverted. -/
def envDeclareReverts : ChainEnv where
  getNonce := .ok 5
  getClass := .error (.starknetError ⟨.known .classHashNotFound, "nf"⟩)
  declareSend := .ok (11, 99)
  getClassHashAt := .ok 99
  deploySend := .error (.signing "unused")
  executeSend := fun _ => .error (.signing "unused")
  txOutcome := fun _ => .reverted 11 "insufficient fee"

/-- C2 counterexample: a declare submission reaches the network (one
submitted nonce) but, because its confirmation reverts, the local
`nonce += FieldElement::ONE` at `main.rs` line 87 is never executed — zero
increments for one submission attempt.  This refutes "the increment
happens exactly once per submission attempt, independent of that
transaction's confirmation outcome": in the source the declare/deploy
increments are sequenced after a successful `wait_for_tx`. -/
theorem nonce_advance_depends_on_confirmation :
    (submittedNonces (runMain (fun _ _ => 0) envDeclareReverts 0 42 []).1).length = 1 ∧
    countAdvances (runMain (fun _ _ => 0) envDeclareReverts 0 42 []).1 = 0 ∧
    (runMain (fun _ _ => 0) envDeclareReverts 0 42 []).2 =
      .error (.tx (.reverted 11 "insufficient fee")) := by
  refine ⟨rfl, rfl, rfl⟩

/-- `awaitLoop` only appends `awaitTx` events. -/
theorem awaitLoop_events (env : ChainEnv) :
    ∀ (hs : List Nat) (ev : List Event), ∃ Δ,
      (awaitLoop env hs ev).1 = ev ++ Δ ∧ ∀ e ∈ Δ, ∃ h, e = Event.awaitTx h := by
  intro hs
  induction hs with
  | nil => intro ev; exact ⟨[], by simp [awaitLoop]⟩
  | cons h t ih =>
    intro ev
    rcases ho : env.txOutcome h with _ | ⟨hh, r⟩ | hh | ⟨hh, er⟩ | _
    · obtain ⟨Δ, hΔ, hall⟩ := ih (ev ++ [.awaitTx h])
      refine ⟨.awaitTx h :: Δ, ?_, ?_⟩
      · simp only [awaitLoop, ho, hΔ, List.append_assoc, List.singleton_append]
      · intro e he
        rcases List.mem_cons.mp he with rfl | hmem
        · exact ⟨h, rfl⟩
        · exact hall e hmem
    all_goals exact ⟨[.awaitTx h], by simp [awaitLoop, ho]⟩

/-- `transferSubmitLoop` only appends `transferSubmit` and `nonceAdvance`
events. -/
theorem transferSubmitLoop_events (env : ChainEnv) :
    ∀ (k i nonce : Nat) (ev : List Event) (hashes : List Nat), ∃ Δ,
      (transferSubmitLoop env i k nonce ev hashes).1 = ev ++ Δ ∧
      ∀ e ∈ Δ, (∃ n h, e = Event.transferSubmit n h) ∨ ∃ n, e = Event.nonceAdvance n := by
  intro k
  induction k with
  | zero => intro i nonce ev hashes; exact ⟨[], by simp [transferSubmitLoop]⟩
  | succ k ih =>
    intro i nonce ev hashes
    rcases hsend : env.executeSend i with e | h
    · exact ⟨[], by simp [transferSubmitLoop, hsend]⟩
    · obtain ⟨Δ, hΔ, hall⟩ := ih (i + 1) ((nonce + 1) % STARK_PRIME)
        (ev ++ [.transferSubmit nonce h, .nonceAdvance ((nonce + 1) % STARK_PRIME)])
        (hashes ++ [h])
      refine ⟨.transferSubmit nonce h :: .nonceAdvance ((nonce + 1) % STARK_PRIME) :: Δ,
        ?_, ?_⟩
      · simp only [transferSubmitLoop, hsend, hΔ, List.append_assoc, List.cons_append,
          List.nil_append, List.singleton_append]
      · intro e he
        rcases List.mem_cons.mp he with rfl | he'
        · exact .inl ⟨nonce, h, rfl⟩
        rcases List.mem_cons.mp he' with rfl | he''
        · exact .inr ⟨(nonce + 1) % STARK_PRIME, rfl⟩
        · exact hall e he''

/-- `transferPhase` only appends `transferSubmit`, `nonceAdvance` and
`awaitTx` events. -/
theorem transferPhase_events (env : ChainEnv) (k nonce : Nat) (ev : List Event) :
    ∃ Δ, (transferPhase env k nonce ev).1 = ev ++ Δ ∧
      ∀ e ∈ Δ, (∃ n h, e = Event.transferSubmit n h) ∨
        (∃ n, e = Event.nonceAdvance n) ∨ ∃ h, e = Event.awaitTx h := by
  obtain ⟨Δ₁, hΔ₁, hall₁⟩ := transferSubmitLoop_events env k 0 nonce ev []
  rcases hl : transferSubmitLoop env 0 k nonce ev [] with ⟨ev', r⟩
  rw [hl] at hΔ₁
  rcases r with e | ⟨hashes, nonce'⟩
  · refine ⟨Δ₁, ?_, fun e he => ?_⟩
    · simp only [transferPhase, hl]
      exact hΔ₁
    · rcases hall₁ e he with h1 | h2
      · exact .inl h1
      · exact .inr (.inl h2)
  · obtain ⟨Δ₂, hΔ₂, hall₂⟩ := awaitLoop_events env hashes ev'
    have hΔ₁' : ev' = ev ++ Δ₁ := hΔ₁
    refine ⟨Δ₁ ++ Δ₂, ?_, fun e he => ?_⟩
    · simp only [transferPhase, hl]
      rw [hΔ₂, hΔ₁', List.append_assoc]
    · rcases List.mem_append.mp he with h1 | h2
      · rcases hall₁ e h1 with ha | hb
        · exact .inl ha
        · exact .inr (.inl hb)
      · exact .inr (.inr (hall₂ e h2))

/-- The batch-transfer phase performs no declare and no deploy submission. -/
theorem transferPhase_counts (env : ChainEnv) (k nonce : Nat) :
    countDeclares (transferPhase env k nonce []).1 = 0 ∧
    countDeploys (transferPhase env k nonce []).1 = 0 := by
  obtain ⟨Δ, hΔ, hall⟩ := transferPhase_events env k nonce []
  rw [countDeclares, countDeploys, hΔ]
  constructor <;>
  · rw [List.nil_append]
    rw [List.countP_eq_zero]
    intro e he
    rcases hall e he with ⟨n, h, rfl⟩ | ⟨n, rfl⟩ | ⟨h, rfl⟩ <;> simp

/-- Awaiting confirmations consumes no nonces. -/
theorem awaitLoop_submittedNonces (env : ChainEnv) (hs : List Nat) (ev : List Event) :
    submittedNonces (awaitLoop env hs ev).1 = submittedNonces ev := by
  obtain ⟨Δ, hΔ, hall⟩ := awaitLoop_events env hs ev
  rw [hΔ, submittedNonces, List.filterMap_append]
  have hnil : (Δ.filterMap fun e =>
      match e with
      | .declareSubmit n _ => some n
      | .deploySubmit n _ => some n
      | .transferSubmit n _ => some n
      | _ => none) = [] := by
    rw [List.filterMap_eq_nil_iff]
    intro e he
    obtain ⟨h, rfl⟩ := hall e he
    rfl
  rw [hnil, List.append_nil]
  rfl

/-- The nonces submitted by the transfer loop are a consecutive run
starting at the loop's starting nonce (a prefix of length `≤ k`, shorter
only when a send fails part-way). -/
theorem transferSubmitLoop_nonces (env : ChainEnv) :
    ∀ (k i nonce : Nat) (ev : List Event) (hashes : List Nat),
      nonce + k < STARK_PRIME →
      ∃ j, j ≤ k ∧
        submittedNonces (transferSubmitLoop env i k nonce ev hashes).1 =
          submittedNonces ev ++ List.range' nonce j := by
  intro k
  induction k with
  | zero =>
    intro i nonce ev hashes _
    exact ⟨0, Nat.le_refl 0, by simp [transferSubmitLoop]⟩
  | succ k ih =>
    intro i nonce ev hashes hb
    rcases hsend : env.executeSend i with e | h
    · exact ⟨0, by omega, by simp [transferSubmitLoop, hsend]⟩
    · have hmod : (nonce + 1) % STARK_PRIME = nonce + 1 := Nat.mod_eq_of_lt (by omega)
      obtain ⟨j, hj, hsn⟩ := ih (i + 1) (nonce + 1)
        (ev ++ [.transferSubmit nonce h, .nonceAdvance (nonce + 1)])
        (hashes ++ [h]) (by omega)
      refine ⟨j + 1, by omega, ?_⟩
      simp only [transferSubmitLoop, hsend, hmod]
      rw [hsn]
      have hone : submittedNonces
          (ev ++ [.transferSubmit nonce h, .nonceAdvance (nonce + 1)]) =
          submittedNonces ev ++ [nonce] := by
        simp [submittedNonces, List.filterMap_append]
      rw [hone, List.range'_succ, List.append_assoc]
      rfl

/-- The nonces submitted by the whole batch-transfer phase are a
consecutive run starting at the phase's starting nonce. -/
theorem transferPhase_nonces (env : ChainEnv) (k nonce : Nat) (ev : List Event)
    (hb : nonce + k < STARK_PRIME) :
    ∃ j, j ≤ k ∧
      submittedNonces (transferPhase env k nonce ev).1 =
        submittedNonces ev ++ List.range' nonce j := by
  obtain ⟨j, hj, hsn⟩ := transferSubmitLoop_nonces env k 0 nonce ev [] hb
  rcases hl : transferSubmitLoop env 0 k nonce ev [] with ⟨ev', r⟩
  rw [hl] at hsn
  have hsn' : submittedNonces ev' = submittedNonces ev ++ List.range' nonce j := hsn
  rcases r with e | ⟨hashes, nonce'⟩
  · exact ⟨j, hj, by simp only [transferPhase, hl]; exact hsn'⟩
  · refine ⟨j, hj, ?_⟩
    simp only [transferPhase, hl]
    rw [awaitLoop_submittedNonces env hashes ev']
    exact hsn'

/-- The declare phase submits a consecutive run of 0 or 1 nonces starting
at its starting nonce, and on success hands the rest of the run the
starting nonce advanced by exactly the number of its submissions. -/
theorem declarePhase_nonces (env : ChainEnv) (class_hash nonce : Nat)
    (hb : nonce + 1 < STARK_PRIME) :
    ∃ j, j ≤ 1 ∧
      submittedNonces (declarePhase env class_hash nonce).1 = List.range' nonce j ∧
      ∀ ch' n', (declarePhase env class_hash nonce).2 = .ok (ch', n') → n' = nonce + j := by
  have hmod : (nonce + 1) % STARK_PRIME = nonce + 1 := Nat.mod_eq_of_lt (by omega)
  rcases hc : check_already_declared env.getClass with e | b
  · exact ⟨0, by omega, by simp [declarePhase, hc, submittedNonces],
      by simp [declarePhase, hc]⟩
  · rcases b with _ | _
    · rcases hd : env.declareSend with e | ⟨txHash, dch⟩
      · exact ⟨0, by omega, by simp [declarePhase, hc, hd, submittedNonces],
          by simp [declarePhase, hc, hd]⟩
      · rcases ho : env.txOutcome txHash with _ | ⟨hh, r⟩ | hh | ⟨hh, er⟩ | _
        · refine ⟨1, by omega, ?_, ?_⟩
          · simp [declarePhase, hc, hd, ho, submittedNonces, List.range'_succ]
          · intro ch' n' hres
            simp only [declarePhase, hc, hd, ho, hmod] at hres
            simp only [Except.ok.injEq, Prod.mk.injEq] at hres
            omega
        all_goals exact ⟨1, by omega,
          by simp [declarePhase, hc, hd, ho, submittedNonces, List.range'_succ],
          by simp [declarePhase, hc, hd, ho]⟩
    · exact ⟨0, by omega, by simp [declarePhase, hc, submittedNonces],
        by intro ch' n' hres
           simp only [declarePhase, hc, Except.ok.injEq, Prod.mk.injEq] at hres
           omega⟩

/-- The deploy phase together with the batch transfers submits a
consecutive run of nonces starting at its starting nonce. -/
theorem deployPhase_nonces (env : ChainEnv) (address k class_hash nonce : Nat)
    (ev : List Event) (hb : nonce + (k + 1) < STARK_PRIME) :
    ∃ j, j ≤ k + 1 ∧
      submittedNonces (deployPhase env address k class_hash nonce ev).1 =
        submittedNonces ev ++ List.range' nonce j := by
  have hmod : (nonce + 1) % STARK_PRIME = nonce + 1 := Nat.mod_eq_of_lt (by omega)
  rcases hg : env.getClassHashAt with e | found
  · rcases hd : env.deploySend with e' | txHash
    · exact ⟨0, by omega, by simp [deployPhase, hg, hd]⟩
    · rcases ho : env.txOutcome txHash with _ | ⟨hh, r⟩ | hh | ⟨hh, er⟩ | _
      · obtain ⟨j, hj, hsn⟩ := transferPhase_nonces env k (nonce + 1)
          (ev ++ [.deploySubmit nonce txHash, .awaitTx txHash,
                  .nonceAdvance (nonce + 1)]) (by omega)
        refine ⟨j + 1, by omega, ?_⟩
        simp only [deployPhase, hg, hd, ho, hmod]
        rw [hsn]
        have hone : submittedNonces
            (ev ++ [.deploySubmit nonce txHash, .awaitTx txHash,
                    .nonceAdvance (nonce + 1)]) =
            submittedNonces ev ++ [nonce] := by
          simp [submittedNonces, List.filterMap_append]
        rw [hone, List.range'_succ, List.append_assoc]
        rfl
      all_goals refine ⟨1, by omega, ?_⟩
      all_goals simp [deployPhase, hg, hd, ho, submittedNonces,
        List.filterMap_append, List.range'_succ]
  · by_cases heq : found = class_hash
    · obtain ⟨j, hj, hsn⟩ := transferPhase_nonces env k nonce ev (by omega)
      exact ⟨j, by omega, by simp only [deployPhase, hg, heq, if_true]; exact hsn⟩
    · exact ⟨0, by omega, by simp [deployPhase, hg, heq]⟩

/-- C2 (amended): the local nonce counter starts from the chain-reported
current nonce, every submission that reaches the network (declare, deploy,
each transfer) carries the counter's current value, and the counter
advances by one after each transfer submission and — for declare and
deploy — after the submission's successful confirmation (a failed
confirmation aborts the run before any further submission).  Consequently
the nonces carried by the run's submissions are exactly the consecutive
values `n0, n0 + 1, ...` starting at the chain-reported nonce: strictly
increasing, none skipped, none reused.  (The bound keeps the run away
from the field-arithmetic wrap-around of `FieldElement` addition.) -/
theorem run_nonces_consecutive (pedersen : Nat → Nat → Nat) (env : ChainEnv)
    (args class_hash : Nat) (cargs : List Nat) (n0 : Nat)
    (hn : env.getNonce = .ok n0)
    (hb : n0 + (args + 2) < STARK_PRIME) :
    ∃ k, k ≤ args + 2 ∧
      submittedNonces (runMain pedersen env args class_hash cargs).1 =
        List.range' n0 k := by
  obtain ⟨j₁, hj₁, hsn₁, hok₁⟩ := declarePhase_nonces env class_hash n0 (by omega)
  rcases hd : declarePhase env class_hash n0 with ⟨ev₁, r₁⟩
  rw [hd] at hsn₁ hok₁
  have hsn₁' : submittedNonces ev₁ = List.range' n0 j₁ := hsn₁
  rcases r₁ with e | ⟨ch', n'⟩
  · exact ⟨j₁, by omega, by simp only [runMain, hn, hd]; exact hsn₁'⟩
  · have hn' : n' = n0 + j₁ := hok₁ ch' n' rfl
    obtain ⟨j₂, hj₂, hsn₂⟩ := deployPhase_nonces env
      (compute_contract_address pedersen 1 ch' cargs) args ch' n' ev₁
      (by omega)
    refine ⟨j₁ + j₂, by omega, ?_⟩
    simp only [runMain, hn, hd]
    rw [hsn₂, hsn₁', hn']
    have hr : List.range' n0 j₁ ++ List.range' (n0 + j₁) j₂ =
        List.range' n0 (j₁ + j₂) := by
      have h := List.range'_append n0 j₁ j₂ 1
      rw [Nat.one_mul] at h
      rw [Nat.add_comm j₁ j₂]
      exact h
    exact hr

/-- Concrete chain environment for the C2 witness: nothing declared or
deployed yet, all sends accepted, all confirmations succeed. -/
def envAllGood : ChainEnv where
  getNonce := .ok 10
  getClass := .error (.starknetError ⟨.known .classHashNotFound, "nf"⟩)
  declareSend := .ok (21, 99)
  getClassHashAt := .error (.starknetError ⟨.known .contractNotFound, "nf"⟩)
  deploySend := .ok 22
  executeSend := fun i => .ok (30 + i)
  txOutcome := fun _ => .succeeded

/-- Witness for C2 (amended) at a concrete environment: a full run with
one declare, one deploy and one transfer consumes the consecutive nonces
10, 11, 12. -/
theorem run_nonces_consecutive_witness :
    ∃ k, k ≤ 1 + 2 ∧
      submittedNonces (runMain (fun _ _ => 0) envAllGood 1 42 []).1 =
        List.range' 10 k := by
  exact run_nonces_consecutive (fun _ _ => 0) envAllGood 1 42 [] 10 rfl (by decide)

/-- C7: the deploy decision trichotomy, for a run whose class is already
declared (so the reported class hash is the expected one).  If the class
hash found at the derived address equals the expected class hash, the
deploy is skipped and the run continues directly with the batch-transfer
phase, performing zero declare and zero deploy submissions; if the found
class hash differs, the run aborts with the conflict error before any
transfer submission (the trace has no transfer submissions at all). -/
theorem deploy_decision_trichotomy (pedersen : Nat → Nat → Nat) (env : ChainEnv)
    (args class_hash n0 : Nat) (cargs : List Nat)
    (hn : env.getNonce = .ok n0)
    (hdecl : env.getClass = .ok ()) :
    (env.getClassHashAt = .ok class_hash →
      runMain pedersen env args class_hash cargs = transferPhase env args n0 [] ∧
      countDeclares (runMain pedersen env args class_hash cargs).1 = 0 ∧
      countDeploys (runMain pedersen env args class_hash cargs).1 = 0) ∧
    (∀ found, env.getClassHashAt = .ok found → found ≠ class_hash →
      runMain pedersen env args class_hash cargs =
        ([], .error (.conflict
          (compute_contract_address pedersen 1 class_hash cargs) found class_hash)) ∧
      countTransfers (runMain pedersen env args class_hash cargs).1 = 0) := by
  have hrun : runMain pedersen env args class_hash cargs =
      deployPhase env (compute_contract_address pedersen 1 class_hash cargs)
        args class_hash n0 [] := by
    simp only [runMain, hn, declarePhase, check_already_declared, hdecl]
  constructor
  · intro hg
    have hphase : runMain pedersen env args class_hash cargs =
        transferPhase env args n0 [] := by
      rw [hrun]
      simp [deployPhase, hg]
    refine ⟨hphase, ?_, ?_⟩
    · rw [hphase]
      exact (transferPhase_counts env args n0).1
    · rw [hphase]
      exact (transferPhase_counts env args n0).2
  · intro found hg hne
    have hphase : runMain pedersen env args class_hash cargs =
        ([], .error (.conflict
          (compute_contract_address pedersen 1 class_hash cargs) found class_hash)) := by
      rw [hrun]
      simp only [deployPhase, hg, if_neg hne]
    exact ⟨hphase, by rw [hphase]; rfl⟩

/-- Concrete chain environment for the C7 witness, matching branch: class
declared, address deployed with the expected class hash 42. -/
def envAlreadyDeployed : ChainEnv where
  getNonce := .ok 10
  getClass := .ok ()
  declareSend := .error (.signing "unused")
  getClassHashAt := .ok 42
  deploySend := .error (.signing "unused")
  executeSend := fun i => .ok (30 + i)
  txOutcome := fun _ => .succeeded

/-- Concrete chain environment for the C7 witness, conflict branch: class
declared, address deployed with a different class hash 43. -/
def envConflict : ChainEnv where
  getNonce := .ok 10
  getClass := .ok ()
  declareSend := .error (.signing "unused")
  getClassHashAt := .ok 43
  deploySend := .error (.signing "unused")
  executeSend := fun i => .ok (30 + i)
  txOutcome := fun _ => .succeeded

/-- Witness for C7 at concrete environments: the matching re-run performs
zero declare and zero deploy submissions, and the conflicting run performs
zero transfer submissions. -/
theorem deploy_decision_trichotomy_witness :
    (countDeclares (runMain (fun _ _ => 0) envAlreadyDeployed 3 42 []).1 = 0 ∧
     countDeploys (runMain (fun _ _ => 0) envAlreadyDeployed 3 42 []).1 = 0) ∧
    countTransfers (runMain (fun _ _ => 0) envConflict 3 42 []).1 = 0 :=
  ⟨⟨((deploy_decision_trichotomy (fun _ _ => 0) envAlreadyDeployed 3 42 10 []
        rfl rfl).1 rfl).2.1,
    ((deploy_decision_trichotomy (fun _ _ => 0) envAlreadyDeployed 3 42 10 []
        rfl rfl).1 rfl).2.2⟩,
   ((deploy_decision_trichotomy (fun _ _ => 0) envConflict 3 42 10 []
        rfl rfl).2 43 rfl (by decide)).2⟩

/-- The events of `k` successful transfer submissions starting at
submission index `i` and nonce `nonce`, where `hs t` is the transaction
hash the network returns for the `t`-th submission. -/
def transferEvents (hs : Nat → Nat) : Nat → Nat → Nat → List Event
  | _, _, 0 => []
  | i, nonce, k + 1 =>
    .transferSubmit nonce (hs i) :: .nonceAdvance (nonce + 1) ::
      transferEvents hs (i + 1) (nonce + 1) k

/-- The hashes returned by `k` successful transfer submissions starting at
submission index `i`. -/
def transferHashes (hs : Nat → Nat) : Nat → Nat → List Nat
  | _, 0 => []
  | i, k + 1 => hs i :: transferHashes hs (i + 1) k

/-- Every hash collected by `transferHashes` comes from one of the `k`
submissions. -/
theorem transferHashes_mem (hs : Nat → Nat) :
    ∀ k i h, h ∈ transferHashes hs i k → ∃ t, t < k ∧ h = hs (i + t) := by
  intro k
  induction k with
  | zero => intro i h hmem; simp [transferHashes] at hmem
  | succ k ih =>
    intro i h hmem
    rw [transferHashes] at hmem
    rcases List.mem_cons.mp hmem with rfl | hmem'
    · exact ⟨0, by omega, by simp⟩
    · obtain ⟨t, ht, rfl⟩ := ih (i + 1) h hmem'
      exact ⟨t + 1, by omega, by rw [Nat.add_comm t 1, Nat.add_assoc]⟩

/-- Splitting the collected hashes at position `j`. -/
theorem transferHashes_split (hs : Nat → Nat) :
    ∀ j n i, j ≤ n →
      transferHashes hs i n = transferHashes hs i j ++ transferHashes hs (i + j) (n - j) := by
  intro j
  induction j with
  | zero => intro n i _; simp [transferHashes]
  | succ j ih =>
    intro n i hj
    rcases n with _ | m
    · omega
    · rw [transferHashes, transferHashes, List.cons_append]
      congr 1
      rw [ih m (i + 1) (by omega)]
      have h1 : i + 1 + j = i + (j + 1) := by omega
      have h2 : m - j = m + 1 - (j + 1) := by omega
      rw [h1, h2]

/-- When every send succeeds, the transfer submission loop appends exactly
the submission events (consecutive nonces, hashes in order) and returns
all collected hashes with the nonce advanced `k` times. -/
theorem transferSubmitLoop_ok (env : ChainEnv) (hs : Nat → Nat) :
    ∀ (k i nonce : Nat) (ev : List Event) (hashes : List Nat),
      (∀ t, t < k → env.executeSend (i + t) = .ok (hs (i + t))) →
      nonce + k < STARK_PRIME →
      transferSubmitLoop env i k nonce ev hashes =
        (ev ++ transferEvents hs i nonce k,
         .ok (hashes ++ transferHashes hs i k, nonce + k)) := by
  intro k
  induction k with
  | zero =>
    intro i nonce ev hashes _ _
    simp [transferSubmitLoop, transferEvents, transferHashes]
  | succ k ih =>
    intro i nonce ev hashes hsend hb
    have h0 : env.executeSend i = .ok (hs i) := by
      have := hsend 0 (by omega)
      rwa [Nat.add_zero] at this
    have hmod : (nonce + 1) % STARK_PRIME = nonce + 1 := Nat.mod_eq_of_lt (by omega)
    have hrec := ih (i + 1) (nonce + 1)
      (ev ++ [.transferSubmit nonce (hs i), .nonceAdvance (nonce + 1)])
      (hashes ++ [hs i])
      (fun t ht => by
        have heq : i + 1 + t = i + (t + 1) := by omega
        rw [heq]
        exact hsend (t + 1) (by omega))
      (by omega)
    simp only [transferSubmitLoop, h0, hmod]
    rw [hrec]
    rw [transferEvents, transferHashes]
    simp [List.append_assoc]
    omega

/-- When every awaited confirmation succeeds, the await loop appends one
`awaitTx` event per hash, in order, and the phase returns `Ok`. -/
theorem awaitLoop_ok (env : ChainEnv) :
    ∀ (hashes : List Nat) (ev : List Event),
      (∀ h ∈ hashes, env.txOutcome h = .succeeded) →
      awaitLoop env hashes ev = (ev ++ hashes.map Event.awaitTx, .ok ()) := by
  intro hashes
  induction hashes with
  | nil => intro ev _; simp [awaitLoop]
  | cons h t ih =>
    intro ev hall
    have hh : env.txOutcome h = .succeeded := hall h (List.mem_cons_self h t)
    have hrec := ih (ev ++ [Event.awaitTx h])
      (fun x hx => hall x (List.mem_cons_of_mem h hx))
    simp only [awaitLoop, hh, hrec]
    simp [List.append_assoc]

/-- The await loop stops at the first non-succeeded confirmation: it
awaits exactly the hashes up to and including the failing one and returns
that outcome as the run's error, skipping the rest. -/
theorem awaitLoop_first_failure (env : ChainEnv) (o : TxOutcome)
    (ho : o ≠ .succeeded) :
    ∀ (pre : List Nat) (bad : Nat) (post : List Nat) (ev : List Event),
      (∀ h ∈ pre, env.txOutcome h = .succeeded) →
      env.txOutcome bad = o →
      awaitLoop env (pre ++ bad :: post) ev =
        (ev ++ (pre ++ [bad]).map Event.awaitTx, .error (.tx o)) := by
  intro pre
  induction pre with
  | nil =>
    intro bad post ev _ hbad
    rcases o with _ | ⟨hh, r⟩ | hh | ⟨hh, er⟩ | _
    · exact absurd rfl ho
    all_goals simp [awaitLoop, hbad]
  | cons h t ih =>
    intro bad post ev hall hbad
    have hh : env.txOutcome h = .succeeded := hall h (List.mem_cons_self h t)
    have hrec := ih bad post (ev ++ [Event.awaitTx h])
      (fun x hx => hall x (List.mem_cons_of_mem h hx)) hbad
    simp only [List.cons_append, awaitLoop, hh, List.append_eq, hrec]
    simp [List.append_assoc]

/-- When the `j`-th send fails (after `j` successful ones), the submission
loop stops there: the trace holds exactly the `j` earlier submissions and
the send error aborts the phase — no confirmation is ever awaited. -/
theorem transferSubmitLoop_send_failure (env : ChainEnv) (hs : Nat → Nat)
    (err : AccountError) :
    ∀ (k j i nonce : Nat) (ev : List Event) (hashes : List Nat),
      j < k →
      nonce + k < STARK_PRIME →
      (∀ t, t < j → env.executeSend (i + t) = .ok (hs (i + t))) →
      env.executeSend (i + j) = .error err →
      transferSubmitLoop env i k nonce ev hashes =
        (ev ++ transferEvents hs i nonce j, .error err) := by
  intro k
  induction k with
  | zero => intro j i nonce ev hashes hj; omega
  | succ k ih =>
    intro j i nonce ev hashes hj hb hok herr
    rcases j with _ | j
    · rw [Nat.add_zero] at herr
      simp [transferSubmitLoop, herr, transferEvents]
    · have h0 : env.executeSend i = .ok (hs i) := by
        have := hok 0 (by omega)
        rwa [Nat.add_zero] at this
      have hmod : (nonce + 1) % STARK_PRIME = nonce + 1 := Nat.mod_eq_of_lt (by omega)
      have hrec := ih j (i + 1) (nonce + 1)
        (ev ++ [.transferSubmit nonce (hs i), .nonceAdvance (nonce + 1)])
        (hashes ++ [hs i])
        (by omega) (by omega)
        (fun t ht => by
          have heq : i + 1 + t = i + (t + 1) := by omega
          rw [heq]
          exact hok (t + 1) (by omega))
        (by
          have heq : i + 1 + j = i + (j + 1) := by omega
          rw [heq]
          exact herr)
      simp only [transferSubmitLoop, h0, hmod]
      rw [hrec, transferEvents]
      simp [List.append_assoc]

/-- C8: the batch-transfer phase, with `hs t` the hash the network returns
for the `t`-th transfer.  (i) When all `n` sends are accepted and every
confirmation succeeds, the phase appends the `n` submission events
back-to-back — consecutive incrementing nonces, hashes collected, no await
interleaved — and only afterwards one `awaitTx` per collected hash in
submission order, completing with `Ok`.  (ii) When all `n` sends are
accepted but the `j`-th awaited confirmation is the first non-succeeded
outcome `o`, all `n` submissions still come first, exactly the first
`j + 1` confirmations are awaited, and `o` becomes the run's error.
(iii) When the `j`-th send itself fails, the loop stops with that send
error after the `j` earlier submissions and no confirmation is ever
awaited. -/
theorem batch_transfer_phase (env : ChainEnv) (n nonce : Nat) (hs : Nat → Nat)
    (hb : nonce + n < STARK_PRIME) :
    ((∀ t, t < n → env.executeSend t = .ok (hs t)) →
      ((∀ t, t < n → env.txOutcome (hs t) = .succeeded) →
        transferPhase env n nonce [] =
          (transferEvents hs 0 nonce n ++ (transferHashes hs 0 n).map Event.awaitTx,
           .ok ())) ∧
      (∀ j o, j < n →
        (∀ t, t < j → env.txOutcome (hs t) = .succeeded) →
        env.txOutcome (hs j) = o → o ≠ .succeeded →
        transferPhase env n nonce [] =
          (transferEvents hs 0 nonce n ++
             (transferHashes hs 0 (j + 1)).map Event.awaitTx,
           .error (.tx o)))) ∧
    (∀ j err, j < n →
      (∀ t, t < j → env.executeSend t = .ok (hs t)) →
      env.executeSend j = .error err →
      transferPhase env n nonce [] =
        (transferEvents hs 0 nonce j, .error (.account err))) := by
  constructor
  · intro hsend
    have hloop := transferSubmitLoop_ok env hs n 0 nonce [] []
      (fun t ht => by simpa using hsend t ht) hb
    constructor
    · intro hout
      have hall : ∀ h ∈ transferHashes hs 0 n, env.txOutcome h = .succeeded := by
        intro h hmem
        obtain ⟨t, ht, rfl⟩ := transferHashes_mem hs n 0 h hmem
        simpa using hout t (by omega)
      simp only [transferPhase, hloop, List.nil_append]
      rw [awaitLoop_ok env (transferHashes hs 0 n) (transferEvents hs 0 nonce n) hall]
    · intro j o hj hpre hbad ho
      have hsplit := transferHashes_split hs j n 0 (by omega)
      have hm : n - j = (n - j - 1) + 1 := by omega
      rw [hm, transferHashes] at hsplit
      simp only [Nat.zero_add] at hsplit
      have hallpre : ∀ h ∈ transferHashes hs 0 j, env.txOutcome h = .succeeded := by
        intro h hmem
        obtain ⟨t, ht, rfl⟩ := transferHashes_mem hs j 0 h hmem
        simpa using hpre t (by omega)
      have hfail := awaitLoop_first_failure env o ho (transferHashes hs 0 j)
        (hs j) (transferHashes hs (j + 1) (n - j - 1))
        (transferEvents hs 0 nonce n) hallpre hbad
      have hsplit1 := transferHashes_split hs j (j + 1) 0 (by omega)
      have hone : j + 1 - j = 1 := by omega
      rw [hone] at hsplit1
      simp only [Nat.zero_add] at hsplit1
      rw [show transferHashes hs j 1 = [hs j] from rfl] at hsplit1
      simp only [transferPhase, hloop, List.nil_append]
      rw [hsplit, hfail, hsplit1]
  · intro j err hj hok herr
    have hloop := transferSubmitLoop_send_failure env hs err n j 0 nonce [] []
      hj hb (fun t ht => by simpa using hok t ht) (by simpa using herr)
    simp only [transferPhase, hloop, List.nil_append]

/-- Witness for C8 at a concrete environment: two transfers are submitted
back-to-back with nonces 10 and 11, then awaited in order, and the phase
completes with `Ok`. -/
theorem batch_transfer_phase_witness :
    transferPhase envAllGood 2 10 [] =
      ([.transferSubmit 10 30, .nonceAdvance 11, .transferSubmit 11 31,
        .nonceAdvance 12, .awaitTx 30, .awaitTx 31], .ok ()) :=
  (((batch_transfer_phase envAllGood 2 10 (fun i => 30 + i) (by decide)).1
      (fun t _ => rfl)).1 (fun t _ => rfl)).trans rfl
